import Mathlib

/-!
Verification of the reply-correlation router of `reply_router.go`
(package rcgo, repository reactive-commons-go).

Shallow embedding. The Go code manipulates three kinds of runtime objects
that outlive single function calls: the pending-reply map `repliesMap`, the
one-shot channels `chan *reply`, and the `time.Timer` objects created by
`time.AfterFunc`. We model them as explicit state:

* the map `repliesMap` becomes an association list `List (String × replyStr)`
  with Go-map semantics (assignment overwrites, `delete` removes the key);
* each channel becomes a numeric id allocated from a counter `nextCh`; what
  the code does to a channel (send a `*reply` value, `close`) is recorded in
  an append-only event log, so "exactly one value is ever sent on this
  channel" is a statement about the log;
* each `time.Timer` becomes a numeric id mapping to a `Timer` record whose
  state tracks the Go timer life cycle: `armed` (Stop would return true),
  `firedPending` (the timer fired and the `AfterFunc` callback is scheduled
  but has not run; Stop returns false), `stopped` (Stop succeeded),
  `done` (the callback ran).  `time.Timer.Stop` returns true iff it
  prevents the timer from firing, i.e. iff the timer is still `armed`.

The concurrent behaviour (the consumer goroutine of `listen`, the timer
goroutines spawned by `time.AfterFunc`, and callers of `addReplyToListen`)
is a step relation `Step` in which each Go code block runs atomically.
-/

namespace Rcgo

/-- Error type `TimeoutReplyError` (errors.go is outside src/; only the
constructor call in `cleanReply`, with its `msg` field, is visible). -/
inductive RcgoError where
  | timeoutReplyError (msg : String)
deriving DecidableEq

/-- Go struct `reply` (reply_router.go lines 12-16): `query string`,
`data []byte` (modelled as a `String` of bytes), `err error`
(`none` is Go's nil error). -/
structure reply where
  query : String
  data : String
  err : Option RcgoError
deriving DecidableEq

/-- Life cycle of a `time.Timer` created by `time.AfterFunc`. -/
inductive TimerState where
  | armed
  | firedPending
  | stopped
  | done
deriving DecidableEq

/-- Model of a `time.Timer` made by `time.AfterFunc(d, f)` in
`addReplyToListen`: the duration `d`, the argument the callback `f` passes
to `cleanReply`, and the current life-cycle state. Durations are Go
`time.Duration`, i.e. signed 64-bit nanosecond counts, modelled as `Int`. -/
structure Timer where
  duration : Int
  onFireArg : String
  state : TimerState
deriving DecidableEq

/-- Go struct `replyStr` (reply_router.go lines 18-24): the originating
query type, the one-shot channel (by id) and the deadline timer (by id). -/
structure replyStr where
  query : String
  ch : Nat
  timer : Nat
deriving DecidableEq

/-- One observable action on a channel: a send of a `*reply` value, or a
`close`. -/
inductive ChanEvent where
  | send (ch : Nat) (r : reply)
  | close (ch : Nat)
deriving DecidableEq

/-- Channel an event happened on. -/
def ChanEvent.chOf : ChanEvent → Nat
  | .send c _ => c
  | .close c => c

/-- Channel of a send event, `none` for a close. -/
def ChanEvent.sendChan : ChanEvent → Option Nat
  | .send c _ => some c
  | .close _ => none

/-- Channels of the send events of a log, in order. -/
def sentChans (evs : List ChanEvent) : List Nat :=
  evs.filterMap ChanEvent.sendChan

/-- Number of values sent on channel `c` so far. -/
def sendCount (evs : List ChanEvent) (c : Nat) : Nat :=
  (sentChans evs).count c

/-- Channel `c` has been closed. -/
def closedOn (evs : List ChanEvent) (c : Nat) : Prop :=
  ChanEvent.close c ∈ evs

instance (evs : List ChanEvent) (c : Nat) : Decidable (closedOn evs c) := by
  unfold closedOn; infer_instance

/-- Association-list lookup, the model of a Go map read `m[k]`. -/
def lookupA {α β : Type} [DecidableEq α] : List (α × β) → α → Option β
  | [], _ => none
  | (k, v) :: rest, a => if k = a then some v else lookupA rest a

/-- Model of Go `delete(m, a)`: every pair under key `a` is removed. -/
def eraseA {α β : Type} [DecidableEq α] (l : List (α × β)) (a : α) : List (α × β) :=
  l.filter (fun p => p.1 ≠ a)

/-- Model of Go map assignment `m[a] = b`: overwrites any previous entry. -/
def insertA {α β : Type} [DecidableEq α] (l : List (α × β)) (a : α) (b : β) : List (α × β) :=
  (a, b) :: eraseA l a

/-- State transition of the timer registry when timer `tid` changes
life-cycle state. -/
def setTimer (ts : List (Nat × Timer)) (tid : Nat) (st : TimerState) : List (Nat × Timer) :=
  ts.map (fun p => if p.1 = tid then (p.1, { p.2 with state := st }) else p)

/-- Go struct `replyRouter` (reply_router.go lines 27-32) together with the
runtime objects it owns. Source fields: `id`, `repliesMap`, `timeout` (the
`ch *amqp.Channel` field is broker plumbing carrying no router state).
Model bookkeeping: the timer registry, the two allocation counters and the
channel event log. -/
structure replyRouter where
  id : String
  timeout : Int
  repliesMap : List (String × replyStr)
  timers : List (Nat × Timer)
  nextCh : Nat
  nextTimer : Nat
  events : List ChanEvent
deriving DecidableEq

/-- Go constant `time.Millisecond` in nanoseconds. -/
def millisecond : Int := 1000000

/-- Constructor `newReplyRouter` (lines 34-47). `uuidStr` stands for the
random `uuid.NewString()`. The second component records whether the
too-short-timeout warning (lines 38-40) was logged. -/
def newReplyRouter (appName : String) (timeout : Int) (uuidStr : String) :
    replyRouter × Bool :=
  ({ id := appName ++ "." ++ uuidStr
     timeout := timeout
     repliesMap := []
     timers := []
     nextCh := 0
     nextTimer := 0
     events := [] },
   decide (timeout < 500 * millisecond))

/-- Modelled from the spec: `globalReplyExchange` is a package-level
constant declared in a file not under src/ ("One shared exchange for
replies"); its exact string value is immaterial here. -/
def globalReplyExchange : String := "globalReply"

/-- Modelled from the spec: the package-level correlation-id header name
constant (declared outside src/; "a correlation-identifier field (native
field preferred, header fallback)"). Its exact value is immaterial here. -/
def correlationIDHeader : String := "x-correlation-id"

/-- Broker-facing arguments of the setup part of `listen`
(reply_router.go lines 55-98): `QueueDeclare`, `QueueBind`, `Qos` and
`Consume`. -/
structure ListenSetup where
  queueName : String
  queueDurable : Bool
  queueAutoDelete : Bool
  queueExclusive : Bool
  bindQueue : String
  bindRoutingKey : String
  bindExchange : String
  prefetchCount : Nat
  consumeQueue : String
  consumeConsumer : String
  consumeAutoAck : Bool
deriving DecidableEq

/-- Setup part of `listen` (lines 55-98): declares the reply queue named
`r.id`, binds it under routing key `r.id` to the shared reply exchange,
sets prefetch 15 and starts an auto-acknowledging consumer. -/
def listenSetup (r : replyRouter) : ListenSetup :=
  { queueName := r.id
    queueDurable := true
    queueAutoDelete := false
    queueExclusive := true
    bindQueue := r.id
    bindRoutingKey := r.id
    bindExchange := globalReplyExchange
    prefetchCount := 15
    consumeQueue := r.id
    consumeConsumer := r.id
    consumeAutoAck := true }

/-- The consumer of `listen` is registered with auto-ack
(line 93 of reply_router.go: `true, // auto-ack`), so the broker considers
every delivered reply acknowledged on delivery. -/
def consumeAutoAck : Bool := true

/-- One delivery from the reply queue (`amqp.Delivery`): the native
`CorrelationId` field, the headers table (reduced to its string-valued
entries, the only ones the code can match) and the body. -/
structure Msg where
  correlationId : String
  headers : List (String × String)
  body : String
deriving DecidableEq

/-- Correlation-id extraction of the consumer loop (lines 109-116).
`none` means the loop acks and drops the delivery as malformed.

Source note: the fallback block reads

    corrId := msg.CorrelationId
    if corrId == "" {
        corrId, ok := msg.Headers[correlationIDHeader]
        if !ok || corrId == "" { m.Ack(false); continue }
    }

where the inner `corrId, ok := ...` declares a new, shadowed variable
scoped to the `if` body, so after a successful header fallback the outer
`corrId` is still `""` and the map lookup below uses `""`, not the header
value. The translation reproduces this: the fallback path yields
`some ""`. -/
def listenCorrId (m : Msg) : Option String :=
  if m.correlationId ≠ "" then
    some m.correlationId
  else
    match lookupA m.headers correlationIDHeader with
    | none => none
    | some h => if h = "" then none else some ""

/-- Body of the consumer loop of `listen` for one delivery
(lines 105-136). Returns the new router state and whether the loop called
`m.Ack(false)` explicitly (the consumer is auto-ack, so this flag is
in addition to the broker-side acknowledgement).

The `lookupA r.timers rs.timer = none` branch is unreachable in the Go
code, where the entry stores the `*time.Timer` pointer itself; it exists
here only because timers are modelled by id. -/
def handleDelivery (r : replyRouter) (m : Msg) : replyRouter × Bool :=
  match listenCorrId m with
  | none => (r, true)
  | some corrId =>
    match lookupA r.repliesMap corrId with
    | none => (r, false)
    | some rs =>
      match lookupA r.timers rs.timer with
      | none => (r, false)
      | some t =>
        if t.state = TimerState.armed then
          ({ r with
              timers := setTimer r.timers rs.timer TimerState.stopped
              repliesMap := eraseA r.repliesMap corrId
              events := r.events ++
                [ChanEvent.send rs.ch ⟨rs.query, m.body, none⟩,
                 ChanEvent.close rs.ch] },
           true)
        else
          (r, true)

/-- Method `cleanReply` (lines 159-174): look the correlation id up; absent
means no-op; otherwise send the timeout error on the entry channel, close
it and delete the entry. (The sent `reply` literal sets only `err`; `query`
and `data` keep their zero values.) -/
def cleanReply (r : replyRouter) (correlationId : String) : replyRouter :=
  match lookupA r.repliesMap correlationId with
  | none => r
  | some rs =>
    { r with
        repliesMap := eraseA r.repliesMap correlationId
        events := r.events ++
          [ChanEvent.send rs.ch
            ⟨"", "", some (RcgoError.timeoutReplyError
              ("timeout while waiting for reply " ++ rs.query))⟩,
           ChanEvent.close rs.ch] }

/-- Method `addReplyToListen` (lines 143-157): make a fresh channel, start
`time.AfterFunc(r.timeout, func() { r.cleanReply(correlationId) })`, store
the entry under `correlationId` (overwriting any previous one, as Go map
assignment does) and return the channel. -/
def addReplyToListen (r : replyRouter) (query correlationId : String) :
    replyRouter × Nat :=
  let ch := r.nextCh
  let timer : Timer := { duration := r.timeout, onFireArg := correlationId
                         state := TimerState.armed }
  ({ r with
      repliesMap := insertA r.repliesMap correlationId
        ⟨query, ch, r.nextTimer⟩
      timers := r.timers ++ [(r.nextTimer, timer)]
      nextCh := r.nextCh + 1
      nextTimer := r.nextTimer + 1 },
   ch)

/-- Interleaving of the execution contexts touching the router, each Go
block atomic: a caller registering a pending reply, the consumer goroutine
handling one delivery, a timer firing (which only schedules its callback),
and a fired timer's scheduled callback running `cleanReply` on the
correlation id it captured. -/
inductive Step : replyRouter → replyRouter → Prop where
  | register (r : replyRouter) (q c : String) :
      Step r (addReplyToListen r q c).1
  | deliver (r : replyRouter) (m : Msg) :
      Step r (handleDelivery r m).1
  | fire (r : replyRouter) (tid : Nat) (t : Timer) :
      lookupA r.timers tid = some t → t.state = TimerState.armed →
      Step r { r with timers := setTimer r.timers tid TimerState.firedPending }
  | cleanRun (r : replyRouter) (tid : Nat) (t : Timer) :
      lookupA r.timers tid = some t → t.state = TimerState.firedPending →
      Step r (cleanReply
        { r with timers := setTimer r.timers tid TimerState.done } t.onFireArg)

/-- Zero or more steps. -/
inductive Steps : replyRouter → replyRouter → Prop where
  | refl (r : replyRouter) : Steps r r
  | tail (r₁ r₂ r₃ : replyRouter) : Steps r₁ r₂ → Step r₂ r₃ → Steps r₁ r₃

/-- Channels of the entries currently pending in the table. -/
def tableChans (r : replyRouter) : List Nat :=
  r.repliesMap.map (fun p => p.2.ch)

/-- Timer ids of the entries currently pending in the table. -/
def tableTimers (r : replyRouter) : List Nat :=
  r.repliesMap.map (fun p => p.2.timer)

/-- The deadline timer of a pending entry has neither been stopped nor has
its callback already run: it is armed, or fired with the callback still
pending. -/
def timerLive (o : Option Timer) : Prop :=
  o.map Timer.state = some TimerState.armed ∨
  o.map Timer.state = some TimerState.firedPending

instance (o : Option Timer) : Decidable (timerLive o) := by
  unfold timerLive; infer_instance

/-- Per-entry part of the router invariant: the channel was allocated, no
value has been sent on it, it is not closed, and the entry's timer exists,
is live, and its callback targets exactly this entry's key. -/
def entryOk (r : replyRouter) (p : String × replyStr) : Prop :=
  p.2.ch < r.nextCh ∧
  sendCount r.events p.2.ch = 0 ∧
  ¬ closedOn r.events p.2.ch ∧
  (lookupA r.timers p.2.timer).map Timer.onFireArg = some p.1 ∧
  timerLive (lookupA r.timers p.2.timer)

instance (r : replyRouter) (p : String × replyStr) : Decidable (entryOk r p) := by
  unfold entryOk; infer_instance

/-- Router state invariant, preserved by every step: keys, channels and
timer ids of the table are pairwise distinct, every pending entry satisfies
`entryOk`, timer ids are distinct and below the allocation counter, all
logged events concern allocated channels, and no channel ever carries two
sends. -/
def Inv (r : replyRouter) : Prop :=
  (r.repliesMap.map Prod.fst).Nodup ∧
  (tableChans r).Nodup ∧
  (tableTimers r).Nodup ∧
  (r.timers.map Prod.fst).Nodup ∧
  (∀ p ∈ r.repliesMap, entryOk r p) ∧
  (∀ e ∈ r.events, e.chOf < r.nextCh) ∧
  (∀ k ∈ r.timers.map Prod.fst, k < r.nextTimer) ∧
  (sentChans r.events).Nodup

instance (r : replyRouter) : Decidable (Inv r) := by
  unfold Inv; infer_instance

/-- A channel no pending entry holds, carrying no send and not closed. -/
def untracked (r : replyRouter) (c : Nat) : Prop :=
  c ∉ tableChans r ∧ sendCount r.events c = 0 ∧ ¬ closedOn r.events c ∧
  c < r.nextCh

/-- Execution contexts from which the source touches `repliesMap`. -/
inductive ExecContext where
  | callerGoroutine
  | consumerGoroutine
  | timerGoroutine
deriving DecidableEq

/-- One access site of the pending-reply table, with the locks the source
holds around it. -/
structure TableAccess where
  context : ExecContext
  site : String
  locksHeld : List String
deriving DecidableEq

/-- The three access sites of `repliesMap` in reply_router.go. The
`replyRouter` struct (lines 27-32) has no mutex field and the file does
not import sync or take any lock, so every lock set is empty:
`addReplyToListen` (lines 143-157) runs on the goroutine of the caller of
requestReply, the lookup+delete of the consumer loop (lines 118-133) runs
on the goroutine `listen` starts, and `cleanReply` (lines 159-174) runs on
the goroutine each fired `time.AfterFunc` timer starts. -/
def tableAccesses : List TableAccess :=
  [⟨ExecContext.callerGoroutine,
    "addReplyToListen: repliesMap[correlationId] = replyStr", []⟩,
   ⟨ExecContext.consumerGoroutine,
    "listen consumer loop: repliesMap[corrId] lookup, delete", []⟩,
   ⟨ExecContext.timerGoroutine,
    "cleanReply: repliesMap[correlationId] lookup, delete", []⟩]

/-- Two accesses from different execution contexts always hold a common
lock. -/
def mutuallyExcluded (accesses : List TableAccess) : Prop :=
  ∀ a ∈ accesses, ∀ b ∈ accesses, a.context ≠ b.context →
    ∃ l ∈ a.locksHeld, l ∈ b.locksHeld

instance (accesses : List TableAccess) :
    Decidable (mutuallyExcluded accesses) := by
  unfold mutuallyExcluded; infer_instance

/-- Concrete router used by the witnesses: appName "app", timeout 600ms,
uuid "uuid". -/
def sampleBase : replyRouter :=
  (newReplyRouter "app" (600 * millisecond) "uuid").1

/-- sampleBase after registering query type "q.type" under correlation id
"corr-1": channel 0, timer 0, timer armed. -/
def sampleRouter : replyRouter :=
  (addReplyToListen sampleBase "q.type" "corr-1").1

/-- sampleRouter after the deadline timer of "corr-1" fired (callback not
yet run): timer.Stop() now returns false. -/
def sampleFired : replyRouter :=
  { sampleRouter with
      timers := setTimer sampleRouter.timers 0 TimerState.firedPending }

/-- sampleBase after registering "q.type" under correlation id "abc". -/
def sampleAbcRouter : replyRouter :=
  (addReplyToListen sampleBase "q.type" "abc").1

/-- Delivery carrying correlation id "corr-1" in the native field. -/
def mCorr1 : Msg := ⟨"corr-1", [], "body-bytes"⟩

/-- Delivery whose correlation id "nope" has no pending entry. -/
def mUnknown : Msg := ⟨"nope", [], "body-bytes"⟩

/-- Delivery with an empty native correlation-id field and the correlation
id "abc" only in the header. -/
def mHdr : Msg := ⟨"", [(correlationIDHeader, "abc")], "body-bytes"⟩

section AssocLemmas

variable {α β : Type} [DecidableEq α]

theorem lookupA_mem {l : List (α × β)} {a : α} {b : β}
    (h : lookupA l a = some b) : (a, b) ∈ l := by
  induction l with
  | nil => simp [lookupA] at h
  | cons p rest ih =>
    obtain ⟨k, v⟩ := p
    by_cases hk : k = a
    · subst hk
      simp [lookupA] at h
      simp [h]
    · simp [lookupA, hk] at h
      exact List.mem_cons_of_mem _ (ih h)

theorem lookupA_mem_keys {l : List (α × β)} {a : α} {b : β}
    (h : lookupA l a = some b) : a ∈ l.map Prod.fst := by
  exact List.mem_map.mpr ⟨(a, b), lookupA_mem h, rfl⟩

theorem lookupA_eq_none_of_not_mem_keys {l : List (α × β)} {a : α}
    (h : a ∉ l.map Prod.fst) : lookupA l a = none := by
  induction l with
  | nil => rfl
  | cons p rest ih =>
    obtain ⟨k, v⟩ := p
    simp only [List.map_cons, List.mem_cons] at h
    push_neg at h
    have hk : k ≠ a := fun hx => h.1 hx.symm
    simp [lookupA, hk, ih h.2]

theorem not_mem_keys_of_lookupA_eq_none {l : List (α × β)} {a : α}
    (h : lookupA l a = none) : a ∉ l.map Prod.fst := by
  induction l with
  | nil => simp
  | cons p rest ih =>
    obtain ⟨k, v⟩ := p
    by_cases hk : k = a
    · subst hk
      simp [lookupA] at h
    · simp only [lookupA, if_neg hk] at h
      simp only [List.map_cons, List.mem_cons]
      push_neg
      exact ⟨fun hx => hk hx.symm, ih h⟩

theorem mem_eraseA {l : List (α × β)} {a : α} {p : α × β} :
    p ∈ eraseA l a ↔ p ∈ l ∧ p.1 ≠ a := by
  simp [eraseA, List.mem_filter]

theorem eraseA_cons (k : α) (v : β) (rest : List (α × β)) (a : α) :
    eraseA ((k, v) :: rest) a =
      if k = a then eraseA rest a else (k, v) :: eraseA rest a := by
  by_cases hk : k = a <;> simp [eraseA, hk]

theorem lookupA_eraseA_self (l : List (α × β)) (a : α) :
    lookupA (eraseA l a) a = none := by
  apply lookupA_eq_none_of_not_mem_keys
  intro hmem
  obtain ⟨p, hp, hfst⟩ := List.mem_map.mp hmem
  exact absurd hfst (mem_eraseA.mp hp).2

theorem lookupA_eraseA_ne {l : List (α × β)} {a b : α} (h : b ≠ a) :
    lookupA (eraseA l a) b = lookupA l b := by
  induction l with
  | nil => rfl
  | cons p rest ih =>
    obtain ⟨k, v⟩ := p
    rw [eraseA_cons]
    by_cases hk : k = a
    · rw [if_pos hk, ih]
      have hkb : k ≠ b := fun hx => h (hx ▸ hk)
      simp [lookupA, hkb]
    · rw [if_neg hk]
      by_cases hb : k = b
      · simp [lookupA, hb]
      · simp [lookupA, hb, ih]

theorem lookupA_insertA_self (l : List (α × β)) (a : α) (v : β) :
    lookupA (insertA l a v) a = some v := by
  simp [insertA, lookupA]

theorem lookupA_insertA_ne {l : List (α × β)} {a b : α} (v : β) (h : b ≠ a) :
    lookupA (insertA l a v) b = lookupA l b := by
  have ha : a ≠ b := fun hx => h hx.symm
  simp only [insertA, lookupA, if_neg ha]
  exact lookupA_eraseA_ne h

theorem mem_insertA {l : List (α × β)} {a : α} {v : β} {p : α × β} :
    p ∈ insertA l a v ↔ p = (a, v) ∨ (p ∈ l ∧ p.1 ≠ a) := by
  simp [insertA, mem_eraseA, List.mem_cons]

theorem eraseA_sublist (l : List (α × β)) (a : α) : (eraseA l a).Sublist l :=
  List.filter_sublist l

theorem keys_insertA_nodup {l : List (α × β)} {a : α} (v : β)
    (h : (l.map Prod.fst).Nodup) : ((insertA l a v).map Prod.fst).Nodup := by
  simp only [insertA, List.map_cons, List.nodup_cons]
  constructor
  · intro hmem
    obtain ⟨p, hp, hfst⟩ := List.mem_map.mp hmem
    exact absurd hfst.symm (mem_eraseA.mp hp).2.symm
  · exact ((eraseA_sublist l a).map Prod.fst).nodup h

theorem lookupA_append_of_some {l₁ l₂ : List (α × β)} {a : α} {b : β}
    (h : lookupA l₁ a = some b) : lookupA (l₁ ++ l₂) a = some b := by
  induction l₁ with
  | nil => simp [lookupA] at h
  | cons p rest ih =>
    obtain ⟨k, v⟩ := p
    by_cases hk : k = a
    · subst hk
      simp [lookupA] at h ⊢
      exact h
    · simp [lookupA, hk] at h ⊢
      exact ih h

theorem lookupA_append_of_none {l₁ l₂ : List (α × β)} {a : α}
    (h : lookupA l₁ a = none) : lookupA (l₁ ++ l₂) a = lookupA l₂ a := by
  induction l₁ with
  | nil => rfl
  | cons p rest ih =>
    obtain ⟨k, v⟩ := p
    by_cases hk : k = a
    · subst hk
      simp [lookupA] at h
    · simp [lookupA, hk] at h ⊢
      exact ih h

end AssocLemmas

theorem keys_setTimer (ts : List (Nat × Timer)) (tid : Nat) (st : TimerState) :
    (setTimer ts tid st).map Prod.fst = ts.map Prod.fst := by
  induction ts with
  | nil => rfl
  | cons p rest ih =>
    by_cases hk : p.1 = tid <;> simp [setTimer, hk] at ih ⊢ <;> exact ih

theorem setTimer_cons (k : Nat) (v : Timer) (rest : List (Nat × Timer))
    (tid : Nat) (st : TimerState) :
    setTimer ((k, v) :: rest) tid st =
      (if k = tid then (k, { v with state := st }) else (k, v)) ::
        setTimer rest tid st := by
  by_cases hk : k = tid <;> simp [setTimer, hk]

theorem lookupA_setTimer (ts : List (Nat × Timer)) (tid : Nat)
    (st : TimerState) (a : Nat) :
    lookupA (setTimer ts tid st) a =
      if a = tid then (lookupA ts a).map (fun t => { t with state := st })
      else lookupA ts a := by
  induction ts with
  | nil => simp [setTimer, lookupA]
  | cons p rest ih =>
    obtain ⟨k, v⟩ := p
    rw [setTimer_cons]
    by_cases hk : k = tid
    · subst hk
      rw [if_pos rfl]
      by_cases ha : k = a
      · subst ha
        simp [lookupA]
      · simp only [lookupA, if_neg ha]
        rw [ih]
    · rw [if_neg hk]
      by_cases ha : k = a
      · subst ha
        simp [lookupA, hk]
      · simp only [lookupA, if_neg ha]
        rw [ih]

theorem lookupA_setTimer_self {ts : List (Nat × Timer)} {tid : Nat} {t : Timer}
    (st : TimerState) (h : lookupA ts tid = some t) :
    lookupA (setTimer ts tid st) tid = some { t with state := st } := by
  simp [lookupA_setTimer, h]

theorem lookupA_setTimer_ne {ts : List (Nat × Timer)} {tid a : Nat}
    (st : TimerState) (h : a ≠ tid) :
    lookupA (setTimer ts tid st) a = lookupA ts a := by
  simp [lookupA_setTimer, h]

theorem sentChans_append (l₁ l₂ : List ChanEvent) :
    sentChans (l₁ ++ l₂) = sentChans l₁ ++ sentChans l₂ := by
  simp [sentChans]

theorem sendCount_append (l₁ l₂ : List ChanEvent) (c : Nat) :
    sendCount (l₁ ++ l₂) c = sendCount l₁ c + sendCount l₂ c := by
  simp [sendCount, sentChans_append, List.count_append]

theorem closedOn_append {l₁ l₂ : List ChanEvent} {c : Nat} :
    closedOn (l₁ ++ l₂) c ↔ closedOn l₁ c ∨ closedOn l₂ c := by
  simp [closedOn]

theorem sentChans_sendclose (ch : Nat) (rep : reply) :
    sentChans [ChanEvent.send ch rep, ChanEvent.close ch] = [ch] := rfl

theorem chOf_of_sendChan {e : ChanEvent} {c : Nat}
    (h : e.sendChan = some c) : e.chOf = c := by
  cases e with
  | send ch r => simpa [ChanEvent.sendChan, ChanEvent.chOf] using h
  | close ch => simp [ChanEvent.sendChan] at h

theorem sendCount_eq_zero_of_bound {evs : List ChanEvent} {n c : Nat}
    (h : ∀ e ∈ evs, e.chOf < n) (hc : n ≤ c) : sendCount evs c = 0 := by
  rw [sendCount, List.count_eq_zero]
  intro hmem
  obtain ⟨e, he, hec⟩ := List.mem_filterMap.mp hmem
  have := h e he
  rw [chOf_of_sendChan hec] at this
  omega

theorem not_closedOn_of_bound {evs : List ChanEvent} {n c : Nat}
    (h : ∀ e ∈ evs, e.chOf < n) (hc : n ≤ c) : ¬ closedOn evs c := by
  intro hmem
  have := h _ hmem
  simp only [ChanEvent.chOf] at this
  omega


theorem entry_timer_lt {r : replyRouter} (h : Inv r) :
    ∀ p ∈ r.repliesMap, p.2.timer < r.nextTimer := by
  intro p hp
  obtain ⟨t, ht, _⟩ := Option.map_eq_some'.mp (h.2.2.2.2.1 p hp).2.2.2.1
  exact h.2.2.2.2.2.2.1 _ (lookupA_mem_keys ht)

theorem inv_register (r : replyRouter) (q c : String) (h : Inv r) :
    Inv (addReplyToListen r q c).1 := by
  have htidlt := entry_timer_lt h
  obtain ⟨hkeys, hchans, htids, htkeys, hent, hev, htb, hsend⟩ := h
  have hchlt : ∀ p ∈ r.repliesMap, p.2.ch < r.nextCh := fun p hp => (hent p hp).1
  have hfreshT : lookupA r.timers r.nextTimer = none :=
    lookupA_eq_none_of_not_mem_keys (fun hmem => absurd (htb _ hmem) (lt_irrefl _))
  unfold addReplyToListen Inv tableChans tableTimers
  simp only
  refine ⟨?_, ?_, ?_, ?_, ?_, ?_, ?_, ?_⟩
  · exact keys_insertA_nodup _ hkeys
  · simp only [insertA, List.map_cons]
    rw [List.nodup_cons]
    constructor
    · intro hmem
      obtain ⟨p, hp, hc⟩ := List.mem_map.mp hmem
      have := hchlt p (mem_eraseA.mp hp).1
      omega
    · exact List.Nodup.sublist ((eraseA_sublist _ _).map _) hchans
  · simp only [insertA, List.map_cons]
    rw [List.nodup_cons]
    constructor
    · intro hmem
      obtain ⟨p, hp, hc⟩ := List.mem_map.mp hmem
      have := htidlt p (mem_eraseA.mp hp).1
      omega
    · exact List.Nodup.sublist ((eraseA_sublist _ _).map _) htids
  · rw [List.map_append]
    rw [List.nodup_append]
    refine ⟨htkeys, List.nodup_singleton _, ?_⟩
    intro a ha hb
    simp only [List.map_cons, List.map_nil, List.mem_singleton] at hb
    subst hb
    exact absurd (htb _ ha) (lt_irrefl _)
  · intro p hp
    rcases mem_insertA.mp hp with rfl | ⟨hpmem, hpne⟩
    · refine ⟨Nat.lt_succ_self _, sendCount_eq_zero_of_bound hev le_rfl,
        not_closedOn_of_bound hev le_rfl, ?_, ?_⟩
      · rw [lookupA_append_of_none hfreshT]
        simp [lookupA]
      · rw [lookupA_append_of_none hfreshT]
        simp [lookupA, timerLive]
    · obtain ⟨hch, hsc, hcl, hof, hlive⟩ := hent p hpmem
      obtain ⟨t, ht, hofa⟩ := Option.map_eq_some'.mp hof
      refine ⟨Nat.lt_succ_of_lt hch, hsc, hcl, ?_, ?_⟩
      · rw [lookupA_append_of_some ht]
        simp [hofa]
      · rw [lookupA_append_of_some ht]
        rw [ht] at hlive
        exact hlive
  · exact fun e he => Nat.lt_succ_of_lt (hev e he)
  · intro k hk
    rw [List.map_append] at hk
    rcases List.mem_append.mp hk with hk | hk
    · exact Nat.lt_succ_of_lt (htb _ hk)
    · simp only [List.map_cons, List.map_nil, List.mem_singleton] at hk
      subst hk
      exact Nat.lt_succ_self _
  · exact hsend

theorem cleanReply_none {r : replyRouter} {c : String}
    (h : lookupA r.repliesMap c = none) : cleanReply r c = r := by
  unfold cleanReply
  rw [h]

theorem cleanReply_some {r : replyRouter} {c : String} {rs : replyStr}
    (h : lookupA r.repliesMap c = some rs) :
    cleanReply r c =
      { r with repliesMap := eraseA r.repliesMap c
               events := r.events ++
                 [ChanEvent.send rs.ch
                   ⟨"", "", some (RcgoError.timeoutReplyError
                     ("timeout while waiting for reply " ++ rs.query))⟩,
                  ChanEvent.close rs.ch] } := by
  unfold cleanReply
  rw [h]

theorem inv_sendclose (r : replyRouter) (k : String) (rs : replyStr) (tv : reply)
    (newTimers : List (Nat × Timer))
    (h : Inv r)
    (hl : lookupA r.repliesMap k = some rs)
    (hkeysT : newTimers.map Prod.fst = r.timers.map Prod.fst)
    (hlook : ∀ p ∈ r.repliesMap, p.1 ≠ k →
       lookupA newTimers p.2.timer = lookupA r.timers p.2.timer) :
    Inv { r with repliesMap := eraseA r.repliesMap k
                 timers := newTimers
                 events := r.events ++
                   [ChanEvent.send rs.ch tv, ChanEvent.close rs.ch] } := by
  obtain ⟨hkeys, hchans, htids, htkeys, hent, hev, htb, hsend⟩ := h
  have hmem : (k, rs) ∈ r.repliesMap := lookupA_mem hl
  obtain ⟨hch, hsc, hcl, hof, hlive⟩ := hent _ hmem
  have hchne : ∀ p ∈ r.repliesMap, p.1 ≠ k → p.2.ch ≠ rs.ch := by
    intro p hp hpne hcc
    exact hpne (congrArg Prod.fst (List.inj_on_of_nodup_map hchans hp hmem hcc))
  unfold Inv tableChans tableTimers
  simp only
  refine ⟨?_, ?_, ?_, ?_, ?_, ?_, ?_, ?_⟩
  · exact List.Nodup.sublist ((eraseA_sublist _ _).map _) hkeys
  · exact List.Nodup.sublist ((eraseA_sublist _ _).map _) hchans
  · exact List.Nodup.sublist ((eraseA_sublist _ _).map _) htids
  · rw [hkeysT]; exact htkeys
  · intro p hp
    obtain ⟨hpmem, hpne⟩ := mem_eraseA.mp hp
    obtain ⟨hch2, hsc2, hcl2, hof2, hlive2⟩ := hent p hpmem
    have hne := hchne p hpmem hpne
    refine ⟨hch2, ?_, ?_, ?_, ?_⟩
    · rw [sendCount_append, hsc2]
      simp [sendCount, sentChans_sendclose, List.count_singleton', hne]
    · rw [closedOn_append]
      rintro (hc | hc)
      · exact hcl2 hc
      · simp only [closedOn, List.mem_cons, List.mem_singleton,
          List.not_mem_nil, or_false] at hc
        rcases hc with hc | hc
        · exact ChanEvent.noConfusion hc
        · exact hne (ChanEvent.close.inj hc)
    · rw [hlook p hpmem hpne]
      exact hof2
    · rw [hlook p hpmem hpne]
      exact hlive2
  · intro e he
    rcases List.mem_append.mp he with he | he
    · exact hev e he
    · simp only [List.mem_cons, List.mem_singleton, List.not_mem_nil,
        or_false] at he
      rcases he with rfl | rfl
      · exact hch
      · exact hch
  · intro kk hkk
    rw [hkeysT] at hkk
    exact htb _ hkk
  · rw [sentChans_append, sentChans_sendclose, List.nodup_append]
    refine ⟨hsend, List.nodup_singleton _, ?_⟩
    intro a ha hb
    simp only [List.mem_singleton] at hb
    subst hb
    rw [sendCount, List.count_eq_zero] at hsc
    exact hsc ha

theorem handleDelivery_malformed {r : replyRouter} {m : Msg}
    (h : listenCorrId m = none) : handleDelivery r m = (r, true) := by
  simp [handleDelivery, h]

theorem handleDelivery_unknown {r : replyRouter} {m : Msg} {corrId : String}
    (h1 : listenCorrId m = some corrId)
    (h2 : lookupA r.repliesMap corrId = none) :
    handleDelivery r m = (r, false) := by
  simp [handleDelivery, h1, h2]

theorem handleDelivery_noTimer {r : replyRouter} {m : Msg} {corrId : String}
    {rs : replyStr}
    (h1 : listenCorrId m = some corrId)
    (h2 : lookupA r.repliesMap corrId = some rs)
    (h3 : lookupA r.timers rs.timer = none) :
    handleDelivery r m = (r, false) := by
  simp [handleDelivery, h1, h2, h3]

theorem handleDelivery_stopFailed {r : replyRouter} {m : Msg} {corrId : String}
    {rs : replyStr} {t : Timer}
    (h1 : listenCorrId m = some corrId)
    (h2 : lookupA r.repliesMap corrId = some rs)
    (h3 : lookupA r.timers rs.timer = some t)
    (h4 : t.state ≠ TimerState.armed) :
    handleDelivery r m = (r, true) := by
  simp [handleDelivery, h1, h2, h3, h4]

theorem handleDelivery_armed {r : replyRouter} {m : Msg} {corrId : String}
    {rs : replyStr} {t : Timer}
    (h1 : listenCorrId m = some corrId)
    (h2 : lookupA r.repliesMap corrId = some rs)
    (h3 : lookupA r.timers rs.timer = some t)
    (h4 : t.state = TimerState.armed) :
    handleDelivery r m =
      ({ r with timers := setTimer r.timers rs.timer TimerState.stopped
                repliesMap := eraseA r.repliesMap corrId
                events := r.events ++
                  [ChanEvent.send rs.ch ⟨rs.query, m.body, none⟩,
                   ChanEvent.close rs.ch] },
       true) := by
  simp [handleDelivery, h1, h2, h3, h4]

theorem inv_deliver (r : replyRouter) (m : Msg) (h : Inv r) :
    Inv (handleDelivery r m).1 := by
  cases hcid : listenCorrId m with
  | none => rw [handleDelivery_malformed hcid]; exact h
  | some corrId =>
    cases hrs : lookupA r.repliesMap corrId with
    | none => rw [handleDelivery_unknown hcid hrs]; exact h
    | some rs =>
      cases ht : lookupA r.timers rs.timer with
      | none => rw [handleDelivery_noTimer hcid hrs ht]; exact h
      | some t =>
        by_cases harm : t.state = TimerState.armed
        · rw [handleDelivery_armed hcid hrs ht harm]
          apply inv_sendclose r corrId rs _ _ h hrs (keys_setTimer _ _ _)
          intro p hp hpne
          have hne : p.2.timer ≠ rs.timer := by
            intro htt
            exact hpne (congrArg Prod.fst
              (List.inj_on_of_nodup_map h.2.2.1 hp (lookupA_mem hrs) htt))
          exact lookupA_setTimer_ne _ hne
        · rw [handleDelivery_stopFailed hcid hrs ht harm]
          exact h

theorem inv_fire (r : replyRouter) (tid : Nat) (t : Timer)
    (hl : lookupA r.timers tid = some t)
    (h : Inv r) :
    Inv { r with timers := setTimer r.timers tid TimerState.firedPending } := by
  obtain ⟨hkeys, hchans, htids, htkeys, hent, hev, htb, hsend⟩ := h
  unfold Inv tableChans tableTimers
  simp only
  refine ⟨hkeys, hchans, htids, ?_, ?_, hev, ?_, hsend⟩
  · rw [keys_setTimer]; exact htkeys
  · intro p hp
    obtain ⟨hch, hsc, hcl, hof, hlive⟩ := hent p hp
    refine ⟨hch, hsc, hcl, ?_, ?_⟩
    · show (lookupA (setTimer r.timers tid TimerState.firedPending)
        p.2.timer).map Timer.onFireArg = some p.1
      by_cases hpt : p.2.timer = tid
      · rw [hpt, lookupA_setTimer_self _ hl]
        rw [hpt, hl] at hof
        simpa using hof
      · rw [lookupA_setTimer_ne _ hpt]
        exact hof
    · show timerLive (lookupA (setTimer r.timers tid TimerState.firedPending)
        p.2.timer)
      by_cases hpt : p.2.timer = tid
      · rw [hpt, lookupA_setTimer_self _ hl]
        exact Or.inr rfl
      · rw [lookupA_setTimer_ne _ hpt]
        exact hlive
  · intro kk hkk
    rw [keys_setTimer] at hkk
    exact htb _ hkk

theorem inv_setTimer_untouched (r : replyRouter) (tid : Nat) (st : TimerState)
    (h : Inv r) (hno : ∀ p ∈ r.repliesMap, p.2.timer ≠ tid) :
    Inv { r with timers := setTimer r.timers tid st } := by
  obtain ⟨hkeys, hchans, htids, htkeys, hent, hev, htb, hsend⟩ := h
  unfold Inv tableChans tableTimers
  simp only
  refine ⟨hkeys, hchans, htids, ?_, ?_, hev, ?_, hsend⟩
  · rw [keys_setTimer]; exact htkeys
  · intro p hp
    obtain ⟨hch, hsc, hcl, hof, hlive⟩ := hent p hp
    refine ⟨hch, hsc, hcl, ?_, ?_⟩
    · show (lookupA (setTimer r.timers tid st) p.2.timer).map Timer.onFireArg
        = some p.1
      rw [lookupA_setTimer_ne _ (hno p hp)]
      exact hof
    · show timerLive (lookupA (setTimer r.timers tid st) p.2.timer)
      rw [lookupA_setTimer_ne _ (hno p hp)]
      exact hlive
  · intro kk hkk
    rw [keys_setTimer] at hkk
    exact htb _ hkk

theorem inv_cleanRun (r : replyRouter) (tid : Nat) (t : Timer)
    (hl : lookupA r.timers tid = some t)
    (h : Inv r) :
    Inv (cleanReply { r with timers := setTimer r.timers tid TimerState.done }
      t.onFireArg) := by
  have hA : ∀ p ∈ r.repliesMap, p.2.timer = tid → p.1 = t.onFireArg := by
    intro p hp hpt
    have hof := (h.2.2.2.2.1 p hp).2.2.2.1
    rw [hpt, hl, Option.map_some'] at hof
    exact (Option.some.inj hof).symm
  cases hrs : lookupA r.repliesMap t.onFireArg with
  | none =>
    have hno : ∀ p ∈ r.repliesMap, p.2.timer ≠ tid := by
      intro p hp hpt
      exact not_mem_keys_of_lookupA_eq_none hrs
        (hA p hp hpt ▸ List.mem_map_of_mem Prod.fst hp)
    have heq : cleanReply
        { r with timers := setTimer r.timers tid TimerState.done } t.onFireArg
        = { r with timers := setTimer r.timers tid TimerState.done } :=
      cleanReply_none hrs
    rw [heq]
    exact inv_setTimer_untouched r tid _ h hno
  | some rs =>
    have heq : cleanReply
        { r with timers := setTimer r.timers tid TimerState.done } t.onFireArg
        = { r with
            repliesMap := eraseA r.repliesMap t.onFireArg,
            timers := setTimer r.timers tid TimerState.done,
            events := r.events ++
              [ChanEvent.send rs.ch
                ⟨"", "", some (RcgoError.timeoutReplyError
                  ("timeout while waiting for reply " ++ rs.query))⟩,
               ChanEvent.close rs.ch] } :=
      cleanReply_some hrs
    rw [heq]
    apply inv_sendclose r t.onFireArg rs _ _ h hrs (keys_setTimer _ _ _)
    intro p hp hpne
    have hne : p.2.timer ≠ tid := fun hpt => hpne (hA p hp hpt)
    exact lookupA_setTimer_ne _ hne

theorem inv_step {r r' : replyRouter} (h : Inv r) (hs : Step r r') : Inv r' := by
  cases hs with
  | register q c => exact inv_register _ q c h
  | deliver m => exact inv_deliver _ m h
  | fire tid t hl ha => exact inv_fire _ tid t hl h
  | cleanRun tid t hl hf => exact inv_cleanRun _ tid t hl h

theorem inv_steps {r r' : replyRouter} (h : Inv r) (hs : Steps r r') : Inv r' := by
  induction hs with
  | refl => exact h
  | tail _ _ _ hstep ih => exact inv_step ih hstep

theorem sendCount_sendclose_self (c : Nat) (tv : reply) :
    sendCount [ChanEvent.send c tv, ChanEvent.close c] c = 1 := by
  simp [sendCount, sentChans_sendclose]

theorem sendCount_sendclose_ne {c d : Nat} (tv : reply) (h : d ≠ c) :
    sendCount [ChanEvent.send c tv, ChanEvent.close c] d = 0 := by
  simp [sendCount, sentChans_sendclose, List.count_singleton', h]

theorem closedOn_sendclose_self (c : Nat) (tv : reply) :
    closedOn [ChanEvent.send c tv, ChanEvent.close c] c := by
  simp [closedOn]

theorem ch_mem_tableChans {r : replyRouter} {k : String} {rs : replyStr}
    (h : lookupA r.repliesMap k = some rs) : rs.ch ∈ tableChans r :=
  List.mem_map_of_mem _ (lookupA_mem h)

/-- Running the pending callback of a fired timer whose target key is in
the table appends exactly the timeout send and the close on the entry's
channel and erases the entry. -/
theorem cleanRun_effect {r : replyRouter} {tid : Nat} {t : Timer}
    {e : replyStr}
    (ht : lookupA r.timers tid = some t)
    (hfp : t.state = TimerState.firedPending)
    (he : lookupA r.repliesMap t.onFireArg = some e) :
    ∃ r', Step r r' ∧
      r'.events = r.events ++
        [ChanEvent.send e.ch
          ⟨"", "", some (RcgoError.timeoutReplyError
            ("timeout while waiting for reply " ++ e.query))⟩,
         ChanEvent.close e.ch] ∧
      r'.repliesMap = eraseA r.repliesMap t.onFireArg := by
  refine ⟨_, Step.cleanRun r tid t ht hfp, ?_, ?_⟩
  · rw [@cleanReply_some
      { r with timers := setTimer r.timers tid TimerState.done }
      t.onFireArg e he]
  · rw [@cleanReply_some
      { r with timers := setTimer r.timers tid TimerState.done }
      t.onFireArg e he]

/-- If the pending entry for `k` is in the table, the timeout path can
always complete: firing the entry's deadline timer (if it has not fired
yet) and running its callback delivers exactly one value on the entry's
channel, closes it and removes the entry. -/
theorem timeout_fallback {r : replyRouter} (h : Inv r) {k : String}
    {e : replyStr} (he : lookupA r.repliesMap k = some e) :
    ∃ r', Steps r r' ∧ sendCount r'.events e.ch = 1 ∧
      closedOn r'.events e.ch ∧ lookupA r'.repliesMap k = none := by
  obtain ⟨hch, hsc, hcl, hof, hlive⟩ := h.2.2.2.2.1 _ (lookupA_mem he)
  have hsc0 : sendCount r.events e.ch = 0 := hsc
  obtain ⟨t, ht, hofa⟩ := Option.map_eq_some'.mp hof
  have hofa0 : t.onFireArg = k := hofa
  have hreach : ∃ rF tF, Steps r rF ∧
      rF.repliesMap = r.repliesMap ∧ rF.events = r.events ∧
      lookupA rF.timers e.timer = some tF ∧
      tF.state = TimerState.firedPending ∧ tF.onFireArg = k := by
    rcases hlive with hst | hst
    · rw [ht, Option.map_some'] at hst
      have harm : t.state = TimerState.armed := Option.some.inj hst
      exact ⟨_, _,
        Steps.tail _ _ _ (Steps.refl r) (Step.fire r e.timer t ht harm),
        rfl, rfl, lookupA_setTimer_self _ ht, rfl, hofa0⟩
    · rw [ht, Option.map_some'] at hst
      exact ⟨r, t, Steps.refl r, rfl, rfl, ht, Option.some.inj hst, hofa0⟩
  obtain ⟨rF, tF, hsteps, hrm, hevF, htF, hfpF, hofF⟩ := hreach
  have heF : lookupA rF.repliesMap tF.onFireArg = some e := by
    rw [hrm, hofF]
    exact he
  obtain ⟨r2, step2, hev2, hrm2⟩ := cleanRun_effect htF hfpF heF
  refine ⟨r2, Steps.tail _ _ _ hsteps step2, ?_, ?_, ?_⟩
  · rw [hev2, sendCount_append, hevF, hsc0, sendCount_sendclose_self]
  · rw [hev2]
    exact closedOn_append.mpr (Or.inr (closedOn_sendclose_self _ _))
  · rw [hrm2, hrm, hofF]
    exact lookupA_eraseA_self _ _

theorem sendCount_le_one_of_inv {r : replyRouter} (h : Inv r) (c : Nat) :
    sendCount r.events c ≤ 1 :=
  List.nodup_iff_count_le_one.mp h.2.2.2.2.2.2.2 c

/-- Any step that increases the number of sends on a channel also closes
that channel and leaves no pending entry holding it. -/
theorem sendclose_analysis {r : replyRouter} (h : Inv r) {kk : String}
    {rs : replyStr} (hl : lookupA r.repliesMap kk = some rs) (tv : reply)
    {c : Nat}
    (hinc : sendCount r.events c <
      sendCount (r.events ++
        [ChanEvent.send rs.ch tv, ChanEvent.close rs.ch]) c) :
    closedOn (r.events ++ [ChanEvent.send rs.ch tv, ChanEvent.close rs.ch]) c ∧
    ∀ k e, lookupA (eraseA r.repliesMap kk) k = some e → e.ch ≠ c := by
  rw [sendCount_append] at hinc
  by_cases hc : c = rs.ch
  · subst hc
    refine ⟨closedOn_append.mpr (Or.inr (closedOn_sendclose_self _ _)), ?_⟩
    intro k e hke hcc
    obtain ⟨hpmem, hpne⟩ := mem_eraseA.mp (lookupA_mem hke)
    exact hpne (congrArg Prod.fst
      (List.inj_on_of_nodup_map h.2.1 hpmem (lookupA_mem hl) hcc))
  · rw [sendCount_sendclose_ne _ hc] at hinc
    omega

theorem step_send_analysis {r r' : replyRouter} (h : Inv r) (hs : Step r r')
    {c : Nat} (hinc : sendCount r.events c < sendCount r'.events c) :
    closedOn r'.events c ∧
    ∀ k e, lookupA r'.repliesMap k = some e → e.ch ≠ c := by
  cases hs with
  | register q kk =>
    exact absurd (show sendCount r.events c < sendCount r.events c from hinc)
      (lt_irrefl _)
  | deliver m =>
    cases hcid : listenCorrId m with
    | none =>
      rw [handleDelivery_malformed hcid] at hinc
      exact absurd hinc (lt_irrefl _)
    | some corrId =>
      cases hrs : lookupA r.repliesMap corrId with
      | none =>
        rw [handleDelivery_unknown hcid hrs] at hinc
        exact absurd hinc (lt_irrefl _)
      | some rs =>
        cases ht : lookupA r.timers rs.timer with
        | none =>
          rw [handleDelivery_noTimer hcid hrs ht] at hinc
          exact absurd hinc (lt_irrefl _)
        | some t =>
          by_cases harm : t.state = TimerState.armed
          · rw [handleDelivery_armed hcid hrs ht harm] at hinc ⊢
            exact sendclose_analysis h hrs _ hinc
          · rw [handleDelivery_stopFailed hcid hrs ht harm] at hinc
            exact absurd hinc (lt_irrefl _)
  | fire tid t hl ha =>
    exact absurd (show sendCount r.events c < sendCount r.events c from hinc)
      (lt_irrefl _)
  | cleanRun tid t hl hfp =>
    cases hrs : lookupA r.repliesMap t.onFireArg with
    | none =>
      rw [@cleanReply_none
        { r with timers := setTimer r.timers tid TimerState.done }
        t.onFireArg hrs] at hinc
      exact absurd hinc (lt_irrefl _)
    | some rs =>
      rw [@cleanReply_some
        { r with timers := setTimer r.timers tid TimerState.done }
        t.onFireArg rs hrs] at hinc ⊢
      exact sendclose_analysis h hrs _ hinc


theorem untracked_sendclose {r : replyRouter} {kk : String} {rs : replyStr}
    (hl : lookupA r.repliesMap kk = some rs) (tv : reply) {c : Nat}
    (hu : untracked r c) :
    c ∉ (eraseA r.repliesMap kk).map (fun p => p.2.ch) ∧
    sendCount (r.events ++
      [ChanEvent.send rs.ch tv, ChanEvent.close rs.ch]) c = 0 ∧
    ¬ closedOn (r.events ++
      [ChanEvent.send rs.ch tv, ChanEvent.close rs.ch]) c := by
  obtain ⟨hnt, hsc, hcl, hlt⟩ := hu
  have hne : c ≠ rs.ch := fun hc => hnt (hc ▸ ch_mem_tableChans hl)
  refine ⟨?_, ?_, ?_⟩
  · intro hmem
    exact hnt (((eraseA_sublist _ _).map _).subset hmem)
  · rw [sendCount_append, hsc, sendCount_sendclose_ne _ hne]
  · rw [closedOn_append]
    rintro (hc | hc)
    · exact hcl hc
    · simp only [closedOn, List.mem_cons, List.mem_singleton,
        List.not_mem_nil, or_false] at hc
      rcases hc with hc | hc
      · exact ChanEvent.noConfusion hc
      · exact hne (ChanEvent.close.inj hc)

theorem untracked_step {r r' : replyRouter} (hs : Step r r') {c : Nat}
    (hu : untracked r c) : untracked r' c := by
  cases hs with
  | register q kk =>
    obtain ⟨hnt, hsc, hcl, hlt⟩ := hu
    refine ⟨?_, hsc, hcl, Nat.lt_succ_of_lt hlt⟩
    show c ∉ (insertA r.repliesMap kk
      ⟨q, r.nextCh, r.nextTimer⟩).map (fun p => p.2.ch)
    simp only [insertA, List.map_cons]
    intro hmem
    rcases List.mem_cons.mp hmem with hc | hc
    · omega
    · exact hnt (((eraseA_sublist _ _).map _).subset hc)
  | deliver m =>
    cases hcid : listenCorrId m with
    | none =>
      rw [handleDelivery_malformed hcid]
      exact hu
    | some corrId =>
      cases hrs : lookupA r.repliesMap corrId with
      | none =>
        rw [handleDelivery_unknown hcid hrs]
        exact hu
      | some rs =>
        cases ht : lookupA r.timers rs.timer with
        | none =>
          rw [handleDelivery_noTimer hcid hrs ht]
          exact hu
        | some t =>
          by_cases harm : t.state = TimerState.armed
          · rw [handleDelivery_armed hcid hrs ht harm]
            obtain ⟨h1, h2, h3⟩ := untracked_sendclose hrs _ hu
            exact ⟨h1, h2, h3, hu.2.2.2⟩
          · rw [handleDelivery_stopFailed hcid hrs ht harm]
            exact hu
  | fire tid t hl ha =>
    exact hu
  | cleanRun tid t hl hfp =>
    cases hrs : lookupA r.repliesMap t.onFireArg with
    | none =>
      rw [@cleanReply_none
        { r with timers := setTimer r.timers tid TimerState.done }
        t.onFireArg hrs]
      exact hu
    | some rs =>
      rw [@cleanReply_some
        { r with timers := setTimer r.timers tid TimerState.done }
        t.onFireArg rs hrs]
      obtain ⟨h1, h2, h3⟩ := untracked_sendclose hrs _ hu
      exact ⟨h1, h2, h3, hu.2.2.2⟩

theorem untracked_steps {r r' : replyRouter} (hs : Steps r r') {c : Nat}
    (hu : untracked r c) : untracked r' c := by
  induction hs with
  | refl => exact hu
  | tail _ _ _ hstep ih => exact untracked_step hstep ih

/-- Claim C1: for every correlation identifier registered with the router,
exactly one outcome is delivered through that entry's channel. Under the
router invariant: (i) along every step sequence no channel ever carries
two sends; (ii) every step that sends on a channel also closes it and
removes every entry holding it, so no later step can send on it again;
(iii) for every pending entry nothing has been delivered yet and a step
sequence (the timer firing and its callback running) exists that delivers
exactly one value on the entry's channel, closes it and deletes the
entry — the timeout is the guaranteed fallback. -/
theorem listen_cleanReply_exactly_once (r : replyRouter) (h : Inv r) :
    (∀ r', Steps r r' → ∀ c, sendCount r'.events c ≤ 1) ∧
    (∀ r₁ r₂, Steps r r₁ → Step r₁ r₂ → ∀ c,
      sendCount r₁.events c < sendCount r₂.events c →
      closedOn r₂.events c ∧
      ∀ k e, lookupA r₂.repliesMap k = some e → e.ch ≠ c) ∧
    (∀ k e, lookupA r.repliesMap k = some e →
      sendCount r.events e.ch = 0 ∧
      ∃ r', Steps r r' ∧ sendCount r'.events e.ch = 1 ∧
        closedOn r'.events e.ch ∧ lookupA r'.repliesMap k = none) := by
  refine ⟨?_, ?_, ?_⟩
  · intro r' hs c
    exact sendCount_le_one_of_inv (inv_steps h hs) c
  · intro r₁ r₂ hs hstep c hinc
    exact step_send_analysis (inv_steps h hs) hstep hinc
  · intro k e he
    exact ⟨(h.2.2.2.2.1 _ (lookupA_mem he)).2.1, timeout_fallback h he⟩

/-- Witness for C1 at the concrete state `sampleRouter` and its pending
entry "corr-1" (channel 0). -/
theorem listen_cleanReply_exactly_once_witness :
    sendCount sampleRouter.events 0 = 0 ∧
    ∃ r', Steps sampleRouter r' ∧ sendCount r'.events 0 = 1 ∧
      closedOn r'.events 0 ∧ lookupA r'.repliesMap "corr-1" = none :=
  (listen_cleanReply_exactly_once sampleRouter (by decide)).2.2 "corr-1"
    ⟨"q.type", 0, 0⟩ (by decide)

/-- Claim C2 (code bug): the header fallback of the consumer loop is dead.
With an empty native correlation-id field and a non-empty correlation-id
header "abc", the inner `corrId, ok := msg.Headers[...]` of lines 111-115
shadows the outer `corrId`, so the lookup key stays "" rather than the
header value "abc", and a pending entry under "abc" is not found: the
delivery is dropped without touching the router state. -/
theorem listenCorrId_header_fallback_shadowed :
    listenCorrId mHdr = some "" ∧
    listenCorrId mHdr ≠ some "abc" ∧
    lookupA sampleAbcRouter.repliesMap "abc" = some ⟨"q.type", 0, 0⟩ ∧
    (handleDelivery sampleAbcRouter mHdr).1 = sampleAbcRouter := by
  refine ⟨by decide, by decide, by decide, ?_⟩
  exact congrArg Prod.fst
    (@handleDelivery_unknown sampleAbcRouter mHdr "" (by decide) (by decide))

/-- Claim C3: a delivered reply whose pending entry's timer cancellation
fails (`timer.Stop()` returned false: the timer is no longer armed) makes
the consumer loop ack and drop: no send, no close, no delete — the state
is returned unchanged. -/
theorem listen_stopFailed_drops (r : replyRouter) (m : Msg) (corrId : String)
    (rs : replyStr) (t : Timer)
    (h1 : listenCorrId m = some corrId)
    (h2 : lookupA r.repliesMap corrId = some rs)
    (h3 : lookupA r.timers rs.timer = some t)
    (h4 : t.state ≠ TimerState.armed) :
    handleDelivery r m = (r, true) :=
  handleDelivery_stopFailed h1 h2 h3 h4

/-- Witness for C3 at `sampleFired`, whose "corr-1" timer has fired. -/
theorem listen_stopFailed_drops_witness :
    handleDelivery sampleFired mCorr1 = (sampleFired, true) :=
  listen_stopFailed_drops sampleFired mCorr1 "corr-1" ⟨"q.type", 0, 0⟩
    ⟨600 * millisecond, "corr-1", TimerState.firedPending⟩
    (by decide) (by decide) (by decide) (by decide)

/-- Claim C4: a delivered reply with a pending entry whose timer
cancellation succeeds is delivered: the entry's channel carries exactly
the reply value ⟨registered query, message body, nil error⟩ and is then
closed, the entry is removed (no entry under the correlation id remains),
and the message is acknowledged. -/
theorem listen_success_delivers (r : replyRouter) (m : Msg) (corrId : String)
    (rs : replyStr) (t : Timer)
    (h1 : listenCorrId m = some corrId)
    (h2 : lookupA r.repliesMap corrId = some rs)
    (h3 : lookupA r.timers rs.timer = some t)
    (h4 : t.state = TimerState.armed) :
    (handleDelivery r m).1.events = r.events ++
      [ChanEvent.send rs.ch ⟨rs.query, m.body, none⟩,
       ChanEvent.close rs.ch] ∧
    lookupA (handleDelivery r m).1.repliesMap corrId = none ∧
    (handleDelivery r m).2 = true := by
  rw [handleDelivery_armed h1 h2 h3 h4]
  exact ⟨rfl, lookupA_eraseA_self _ _, rfl⟩

/-- Witness for C4 at `sampleRouter` (timer still armed). -/
theorem listen_success_delivers_witness :
    (handleDelivery sampleRouter mCorr1).1.events = sampleRouter.events ++
      [ChanEvent.send 0 ⟨"q.type", "body-bytes", none⟩, ChanEvent.close 0] ∧
    lookupA (handleDelivery sampleRouter mCorr1).1.repliesMap "corr-1"
      = none ∧
    (handleDelivery sampleRouter mCorr1).2 = true :=
  listen_success_delivers sampleRouter mCorr1 "corr-1" ⟨"q.type", 0, 0⟩
    ⟨600 * millisecond, "corr-1", TimerState.armed⟩
    (by decide) (by decide) (by decide) (by decide)

/-- Claim C5: `cleanReply` on an absent correlation id is a no-op; on a
present one it sends the TimeoutReplyError value through the entry's
channel, closes it and removes the entry before returning; and calling it
twice with the same id equals calling it once. -/
theorem cleanReply_timeout_spec (r : replyRouter) (c : String) :
    (lookupA r.repliesMap c = none → cleanReply r c = r) ∧
    (∀ rs, lookupA r.repliesMap c = some rs →
      (cleanReply r c).events = r.events ++
        [ChanEvent.send rs.ch
          ⟨"", "", some (RcgoError.timeoutReplyError
            ("timeout while waiting for reply " ++ rs.query))⟩,
         ChanEvent.close rs.ch] ∧
      (cleanReply r c).repliesMap = eraseA r.repliesMap c ∧
      lookupA (cleanReply r c).repliesMap c = none) ∧
    cleanReply (cleanReply r c) c = cleanReply r c := by
  refine ⟨fun h => cleanReply_none h, ?_, ?_⟩
  · intro rs hrs
    rw [cleanReply_some hrs]
    exact ⟨rfl, rfl, lookupA_eraseA_self _ _⟩
  · cases hrs : lookupA r.repliesMap c with
    | none =>
      rw [cleanReply_none hrs, cleanReply_none hrs]
    | some rs =>
      have h2 : lookupA (cleanReply r c).repliesMap c = none := by
        rw [cleanReply_some hrs]
        exact lookupA_eraseA_self _ _
      rw [cleanReply_none h2]

/-- Witness for C5 at `sampleRouter` and its pending id "corr-1". -/
theorem cleanReply_timeout_spec_witness :
    lookupA (cleanReply sampleRouter "corr-1").repliesMap "corr-1" = none :=
  ((cleanReply_timeout_spec sampleRouter "corr-1").2.1 ⟨"q.type", 0, 0⟩
    (by decide)).2.2

/-- Claim C6: `addReplyToListen query correlationId` allocates a fresh
channel (never sent on, never closed, held by no pending entry), starts an
armed timer for the router's configured timeout whose callback argument is
`correlationId`, stores the entry ⟨query, channel, timer⟩ under
`correlationId`, and returns exactly that channel. -/
theorem addReplyToListen_spec (r : replyRouter) (q c : String) (h : Inv r) :
    (addReplyToListen r q c).2 = r.nextCh ∧
    lookupA (addReplyToListen r q c).1.repliesMap c =
      some ⟨q, (addReplyToListen r q c).2, r.nextTimer⟩ ∧
    lookupA (addReplyToListen r q c).1.timers r.nextTimer =
      some ⟨r.timeout, c, TimerState.armed⟩ ∧
    sendCount r.events (addReplyToListen r q c).2 = 0 ∧
    ¬ closedOn r.events (addReplyToListen r q c).2 ∧
    (addReplyToListen r q c).2 ∉ tableChans r := by
  have hfreshT : lookupA r.timers r.nextTimer = none :=
    lookupA_eq_none_of_not_mem_keys
      (fun hmem => absurd (h.2.2.2.2.2.2.1 _ hmem) (lt_irrefl _))
  refine ⟨rfl, ?_, ?_, ?_, ?_, ?_⟩
  · exact lookupA_insertA_self _ _ _
  · show lookupA (r.timers ++
      [(r.nextTimer, ⟨r.timeout, c, TimerState.armed⟩)]) r.nextTimer =
      some ⟨r.timeout, c, TimerState.armed⟩
    rw [lookupA_append_of_none hfreshT]
    simp [lookupA]
  · exact sendCount_eq_zero_of_bound h.2.2.2.2.2.1 le_rfl
  · exact not_closedOn_of_bound h.2.2.2.2.2.1 le_rfl
  · intro hmem
    obtain ⟨p, hp, hc⟩ := List.mem_map.mp hmem
    have hlt := (h.2.2.2.2.1 p hp).1
    have hc2 : p.2.ch = r.nextCh := hc
    omega

/-- Witness for C6: registering "q.type" under "corr-1" on the empty
router. -/
theorem addReplyToListen_spec_witness :
    (addReplyToListen sampleBase "q.type" "corr-1").2 = 0 ∧
    lookupA (addReplyToListen sampleBase "q.type" "corr-1").1.repliesMap
      "corr-1" = some ⟨"q.type", 0, 0⟩ ∧
    lookupA (addReplyToListen sampleBase "q.type" "corr-1").1.timers 0 =
      some ⟨600 * millisecond, "corr-1", TimerState.armed⟩ ∧
    sendCount sampleBase.events 0 = 0 ∧
    ¬ closedOn sampleBase.events 0 ∧
    0 ∉ tableChans sampleBase :=
  addReplyToListen_spec sampleBase "q.type" "corr-1" (by decide)

/-- Claim C7: a delivered reply whose extracted correlation id has no
pending entry leaves the router state unchanged (no send, no table
change); the delivery is acknowledged because the consumer was registered
with auto-ack. -/
theorem listen_unknown_corrId_noop (r : replyRouter) (m : Msg)
    (corrId : String)
    (h1 : listenCorrId m = some corrId)
    (h2 : lookupA r.repliesMap corrId = none) :
    (handleDelivery r m).1 = r ∧ consumeAutoAck = true := by
  rw [handleDelivery_unknown h1 h2]
  exact ⟨rfl, rfl⟩

/-- Witness for C7: a reply with unknown correlation id "nope". -/
theorem listen_unknown_corrId_noop_witness :
    (handleDelivery sampleRouter mUnknown).1 = sampleRouter ∧
    consumeAutoAck = true :=
  listen_unknown_corrId_noop sampleRouter mUnknown "nope"
    (by decide) (by decide)

/-- Claim C8: `newReplyRouter` warns exactly when the timeout is strictly
below 500 milliseconds, and the derived identity appName ++ "." ++ uuid is
used by `listen` as the declared queue name, as the routing key of the
binding of that queue, and the binding targets the shared reply
exchange. -/
theorem newReplyRouter_spec (appName : String) (timeout : Int) (u : String) :
    ((newReplyRouter appName timeout u).2 = true ↔
      timeout < 500 * millisecond) ∧
    (newReplyRouter appName timeout u).1.id = appName ++ "." ++ u ∧
    (listenSetup (newReplyRouter appName timeout u).1).queueName =
      (newReplyRouter appName timeout u).1.id ∧
    (listenSetup (newReplyRouter appName timeout u).1).bindQueue =
      (listenSetup (newReplyRouter appName timeout u).1).queueName ∧
    (listenSetup (newReplyRouter appName timeout u).1).bindRoutingKey =
      (newReplyRouter appName timeout u).1.id ∧
    (listenSetup (newReplyRouter appName timeout u).1).bindExchange =
      globalReplyExchange := by
  refine ⟨?_, rfl, rfl, rfl, rfl, rfl⟩
  simp [newReplyRouter]

/-- Claim C9 (code bug): the three `repliesMap` access sites run on three
different goroutines and the source holds no lock at any of them, so the
accesses are not mutually exclusive. -/
theorem tableAccesses_not_mutually_excluded :
    ¬ mutuallyExcluded tableAccesses := by
  decide

/-- Claim C10: a second `addReplyToListen` under an already-pending
correlation id overwrites the entry: the table now holds only the new
entry (fresh channel, fresh timer), the first entry's channel differs from
the new one, the first entry's timer is untouched by the overwrite (still
live, not stopped), and along every step sequence from the overwritten
state no value is ever sent on the first channel and it is never
closed. -/
theorem addReplyToListen_overwrite (r : replyRouter) (q₂ c : String)
    (e₁ : replyStr) (h : Inv r)
    (h1 : lookupA r.repliesMap c = some e₁) :
    lookupA (addReplyToListen r q₂ c).1.repliesMap c =
      some ⟨q₂, r.nextCh, r.nextTimer⟩ ∧
    e₁.ch ≠ r.nextCh ∧
    lookupA (addReplyToListen r q₂ c).1.timers e₁.timer =
      lookupA r.timers e₁.timer ∧
    timerLive (lookupA (addReplyToListen r q₂ c).1.timers e₁.timer) ∧
    (∀ r', Steps (addReplyToListen r q₂ c).1 r' →
      sendCount r'.events e₁.ch = 0 ∧ ¬ closedOn r'.events e₁.ch) := by
  obtain ⟨hch, hsc, hcl, hof, hlive⟩ := h.2.2.2.2.1 _ (lookupA_mem h1)
  have hch0 : e₁.ch < r.nextCh := hch
  obtain ⟨t, ht, hofa⟩ := Option.map_eq_some'.mp hof
  have happ : lookupA (addReplyToListen r q₂ c).1.timers e₁.timer =
      lookupA r.timers e₁.timer := by
    show lookupA (r.timers ++
      [(r.nextTimer, ⟨r.timeout, c, TimerState.armed⟩)]) e₁.timer =
      lookupA r.timers e₁.timer
    rw [lookupA_append_of_some ht, ht]
  refine ⟨lookupA_insertA_self _ _ _, by omega, happ, ?_, ?_⟩
  · rw [happ]
    exact hlive
  · intro r' hsteps
    have hu : untracked (addReplyToListen r q₂ c).1 e₁.ch := by
      refine ⟨?_, hsc, hcl, Nat.lt_succ_of_lt hch0⟩
      show e₁.ch ∉ (insertA r.repliesMap c
        ⟨q₂, r.nextCh, r.nextTimer⟩).map (fun p => p.2.ch)
      simp only [insertA, List.map_cons]
      intro hmem
      rcases List.mem_cons.mp hmem with hcc | hcc
      · have hcc2 : e₁.ch = r.nextCh := hcc
        omega
      · obtain ⟨p, hp, hpc⟩ := List.mem_map.mp hcc
        obtain ⟨hpmem, hpne⟩ := mem_eraseA.mp hp
        exact hpne (congrArg Prod.fst
          (List.inj_on_of_nodup_map h.2.1 hpmem (lookupA_mem h1) hpc))
    have hend := untracked_steps hsteps hu
    exact ⟨hend.2.1, hend.2.2.1⟩

/-- Witness for C10: second registration under "corr-1" on
`sampleRouter`. -/
theorem addReplyToListen_overwrite_witness :
    lookupA (addReplyToListen sampleRouter "q2" "corr-1").1.repliesMap
      "corr-1" = some ⟨"q2", 1, 1⟩ :=
  (addReplyToListen_overwrite sampleRouter "q2" "corr-1" ⟨"q.type", 0, 0⟩
    (by decide) (by decide)).1

end Rcgo
